import Mathlib

/-!
Shallow embedding of the per-epoch state-transition core of a beacon-chain
implementation (`eth2.beacon.state_machines.forks.serenity.epoch_processing`
and `eth2.beacon.epoch_processing_helpers`), together with proofs about the
justification/finalization rules, winning-root selection, crosslink updates,
rewards and penalties, registry rotation and final updates.

Conventions of the embedding:
* Python integers are `Nat` (balances, bitfields, slots) or `Int` where the
  source can produce negative values (epoch differences such as
  `previous_epoch - 2`).
* 32-byte roots (`Hash32`) are modelled by an arbitrary linearly ordered type
  `R`; Python's raw-bytes comparison of two equal-length byte strings is a
  linear order, so every theorem proved for an arbitrary `[LinearOrder R]`
  covers the lexicographic 32-byte order.  Witness instantiations use `R = ℕ`.
* Functions of the repository that live outside the two embedded modules
  (`get_attestation_participants`, `get_crosslink_committees_at_slot`,
  `generate_seed`, `hash_eth2`, ...) are taken as parameters.
* Python `state.copy(...)` immutable updates become structure updates;
  `try/except` becomes `Option`.
-/

namespace PyEvm

/-! ## Data model -/

/-- Embedding of `AttestationData`: the fields the epoch-processing core
reads (`slot`, `shard`, `shard_block_root`, `epoch_boundary_root`,
`beacon_block_root`, `justified_epoch`).  `R` is the 32-byte root type. -/
structure AttestationData (R : Type) where
  slot : ℕ
  shard : ℕ
  shard_block_root : R
  epoch_boundary_root : R
  beacon_block_root : R
  justified_epoch : ℕ
deriving DecidableEq, Repr

/-- Embedding of `PendingAttestationRecord`: attestation data plus the
aggregation bitfield (a natural) and the slot it was included at. -/
structure PendingAttestationRecord (R : Type) where
  data : AttestationData R
  aggregation_bitfield : ℕ
  slot_included : ℕ
deriving DecidableEq, Repr

/-- Embedding of `CrosslinkRecord` (`{epoch, shard_block_root}`). -/
structure CrosslinkRecord (R : Type) where
  epoch : ℕ
  shard_block_root : R
deriving DecidableEq, Repr

section Helpers

variable {R : Type} [LinearOrder R]

/-- Embedding of `slot_to_epoch` (external interface, spec §6):
`slot / slots_per_epoch`, integer division. -/
def slot_to_epoch (slot slots_per_epoch : ℕ) : ℕ :=
  slot / slots_per_epoch

/-- Embedding of `get_epoch_start_slot` (external interface, spec §6):
`epoch · slots_per_epoch`. -/
def get_epoch_start_slot (epoch slots_per_epoch : ℕ) : ℕ :=
  epoch * slots_per_epoch

/-- Modelled from the spec: `get_effective_balance` (eth2.beacon.helpers, not
under src/); spec §6: `min(balances[i], max_deposit_amount)`.  Balances are a
total map `ℕ → ℕ` (the source indexes a sequence under the §3 invariant). -/
def get_effective_balance (validator_balances : ℕ → ℕ)
    (index max_deposit_amount : ℕ) : ℕ :=
  min (validator_balances index) max_deposit_amount

/-- Modelled from the spec: `get_total_balance` (eth2.beacon.helpers, not
under src/); spec §6: sum of effective balances over the index set. -/
def get_total_balance (validator_balances : ℕ → ℕ)
    (validator_indices : Finset ℕ) (max_deposit_amount : ℕ) : ℕ :=
  ∑ i in validator_indices, get_effective_balance validator_balances i max_deposit_amount

/-- Embedding of `get_current_epoch_attestations`
(epoch_processing_helpers.py lines 52-59); the `state.current_epoch` method
value is passed in as `current_epoch`. -/
def get_current_epoch_attestations (latest_attestations : List (PendingAttestationRecord R))
    (current_epoch slots_per_epoch : ℕ) : List (PendingAttestationRecord R) :=
  latest_attestations.filter fun a =>
    decide (current_epoch = slot_to_epoch a.data.slot slots_per_epoch)

/-- Embedding of `get_previous_epoch_attestations`
(epoch_processing_helpers.py lines 62-70). -/
def get_previous_epoch_attestations (latest_attestations : List (PendingAttestationRecord R))
    (previous_epoch slots_per_epoch : ℕ) : List (PendingAttestationRecord R) :=
  latest_attestations.filter fun a =>
    decide (previous_epoch = slot_to_epoch a.data.slot slots_per_epoch)

/-- Modelled from the spec: `get_previous_epoch_justified_attestations`
(eth2.beacon.epoch_processing_helpers in the repository, not under src/);
spec §4.1: the previous-epoch subset whose `data.justified_epoch` equals
`state.previous_justified_epoch`. -/
def get_previous_epoch_justified_attestations
    (latest_attestations : List (PendingAttestationRecord R))
    (previous_epoch slots_per_epoch previous_justified_epoch : ℕ) :
    List (PendingAttestationRecord R) :=
  (get_previous_epoch_attestations latest_attestations previous_epoch slots_per_epoch).filter
    fun a => decide (a.data.justified_epoch = previous_justified_epoch)

/-- Embedding of the `previous_epoch_boundary_attestations` selection
(epoch_processing.py lines 345-356): the justified subset whose
`epoch_boundary_root` equals the historical block root at the previous
epoch's start slot.  `block_root` stands for the external `get_block_root`.
-/
def previous_epoch_boundary_attestations
    (latest_attestations : List (PendingAttestationRecord R))
    (previous_epoch slots_per_epoch previous_justified_epoch : ℕ)
    (block_root : ℕ → R) : List (PendingAttestationRecord R) :=
  (get_previous_epoch_justified_attestations latest_attestations previous_epoch
      slots_per_epoch previous_justified_epoch).filter
    fun a => decide (a.data.epoch_boundary_root =
      block_root (get_epoch_start_slot previous_epoch slots_per_epoch))

/-- Modelled from the spec: `get_previous_epoch_head_attestations`
(eth2.beacon.epoch_processing_helpers in the repository, not under src/);
spec §4.1: the previous-epoch subset whose `data.beacon_block_root` equals
the historical block root at `data.slot`. -/
def get_previous_epoch_head_attestations
    (latest_attestations : List (PendingAttestationRecord R))
    (previous_epoch slots_per_epoch : ℕ) (block_root : ℕ → R) :
    List (PendingAttestationRecord R) :=
  (get_previous_epoch_attestations latest_attestations previous_epoch slots_per_epoch).filter
    fun a => decide (a.data.beacon_block_root = block_root a.data.slot)

/-! ## Winning-root selection -/

/-- Embedding of `get_shard_block_root_attester_indices`
(epoch_processing_helpers.py lines 73-95): filter the attestations matching
`shard`/`shard_block_root`, expand each through the external
`get_attestation_participants` (the parameter `participants`, applied to the
attestation's data and aggregation bitfield), and take the set union. -/
def get_shard_block_root_attester_indices
    (participants : AttestationData R → ℕ → List ℕ)
    (attestations : List (PendingAttestationRecord R))
    (shard : ℕ) (shard_block_root : R) : Finset ℕ :=
  ((attestations.filter fun a =>
      decide (a.data.shard = shard) && decide (a.data.shard_block_root = shard_block_root)).flatMap
    fun a => participants a.data a.aggregation_bitfield).toFinset

/-- Embedding of `get_shard_block_root_total_attesting_balance`
(epoch_processing_helpers.py lines 98-117). -/
def get_shard_block_root_total_attesting_balance
    (participants : AttestationData R → ℕ → List ℕ)
    (validator_balances : ℕ → ℕ) (max_deposit_amount : ℕ)
    (attestations : List (PendingAttestationRecord R))
    (shard : ℕ) (shard_block_root : R) : ℕ :=
  get_total_balance validator_balances
    (get_shard_block_root_attester_indices participants attestations shard shard_block_root)
    max_deposit_amount

/-- One iteration of the `for shard_block_root in shard_block_roots` loop of
`get_winning_root` (epoch_processing_helpers.py lines 135-149): keep the
candidate with the larger attesting balance, and on a tie with a strictly
positive balance keep the smaller root.  In the tie branch the accumulated
root cannot be `none` (a positive balance was recorded by a strict
improvement); that unreachable case keeps the accumulator. -/
def winning_root_step (bal : R → ℕ) :
    Option R × ℕ → R → Option R × ℕ
  | (winning_root, winning_root_balance), shard_block_root =>
    let total_attesting_balance := bal shard_block_root
    if winning_root_balance < total_attesting_balance then
      (some shard_block_root, total_attesting_balance)
    else if total_attesting_balance = winning_root_balance ∧ 0 < winning_root_balance then
      match winning_root with
      | some w =>
        if shard_block_root < w then (some shard_block_root, winning_root_balance)
        else (some w, winning_root_balance)
      | none => (none, winning_root_balance)
    else (winning_root, winning_root_balance)

/-- Embedding of `get_winning_root` (epoch_processing_helpers.py lines
120-153).  The source iterates over the Python *set* of candidate roots in
unspecified order; the embedding iterates over the candidate list in list
order (duplicates and order are proved immaterial), and the source's
`NoWinningRootError` becomes `none`. -/
def get_winning_root (participants : AttestationData R → ℕ → List ℕ)
    (validator_balances : ℕ → ℕ) (max_deposit_amount : ℕ)
    (shard : ℕ) (attestations : List (PendingAttestationRecord R)) :
    Option (R × ℕ) :=
  let shard_block_roots :=
    (attestations.filter fun a => decide (a.data.shard = shard)).map
      fun a => a.data.shard_block_root
  match shard_block_roots.foldl
      (winning_root_step (get_shard_block_root_total_attesting_balance participants
        validator_balances max_deposit_amount attestations shard)) (none, 0) with
  | (none, _) => none
  | (some winning_root, winning_root_balance) => some (winning_root, winning_root_balance)

/-- Loop invariant of the winning-root fold: after consuming the roots of
`seen`, a `none` accumulator means every seen root has zero balance, and a
`some w` accumulator holds the maximal balance over `seen`, realised by `w`,
with `w` the least root attaining it. -/
def WinInv (bal : R → ℕ) (seen : List R) : Option R × ℕ → Prop
  | (none, wb) => wb = 0 ∧ ∀ r ∈ seen, bal r = 0
  | (some w, wb) => 0 < wb ∧ bal w = wb ∧ w ∈ seen ∧
      (∀ r ∈ seen, bal r ≤ wb) ∧ ∀ r ∈ seen, bal r = wb → w ≤ r

/-! ## Crosslinks -/

/-- Embedding of `_filter_attestations_by_shard` (epoch_processing.py lines
197-203). -/
def filter_attestations_by_shard (attestations : List (PendingAttestationRecord R))
    (shard : ℕ) : List (PendingAttestationRecord R) :=
  attestations.filter fun a => decide (a.data.shard = shard)

/-- Embedding of the body of the `for crosslink_committee, shard in
crosslink_committees_at_slot` loop of `process_crosslinks`
(epoch_processing.py lines 237-271): try the winning-root selection over the
attestations for this shard; on `NoWinningRootError` skip, otherwise update
`latest_crosslinks[shard]` when `3 · total_attesting_balance ≥
2 · total_balance` of the committee. -/
def crosslink_step (participants : AttestationData R → ℕ → List ℕ)
    (validator_balances : ℕ → ℕ) (max_deposit_amount current_epoch : ℕ)
    (attestations : List (PendingAttestationRecord R))
    (latest_crosslinks : List (CrosslinkRecord R))
    (crosslink_committee : List ℕ) (shard : ℕ) : List (CrosslinkRecord R) :=
  match get_winning_root participants validator_balances max_deposit_amount shard
      (filter_attestations_by_shard attestations shard) with
  | none => latest_crosslinks
  | some (winning_root, total_attesting_balance) =>
    let total_balance :=
      (crosslink_committee.map fun i =>
        get_effective_balance validator_balances i max_deposit_amount).sum
    if 3 * total_attesting_balance ≥ 2 * total_balance then
      latest_crosslinks.set shard ⟨current_epoch, winning_root⟩
    else latest_crosslinks

/-- Embedding of `process_crosslinks` (epoch_processing.py lines 206-275):
fold `crosslink_step` over every `(committee, shard)` of every slot in
`[prev_epoch_start_slot, next_epoch_start_slot)`; `committees_at` stands for
the external `get_crosslink_committees_at_slot`. -/
def process_crosslinks (participants : AttestationData R → ℕ → List ℕ)
    (validator_balances : ℕ → ℕ) (max_deposit_amount : ℕ)
    (committees_at : ℕ → List (List ℕ × ℕ))
    (latest_attestations : List (PendingAttestationRecord R))
    (current_epoch previous_epoch slots_per_epoch : ℕ)
    (latest_crosslinks : List (CrosslinkRecord R)) : List (CrosslinkRecord R) :=
  let attestations :=
    get_previous_epoch_attestations latest_attestations previous_epoch slots_per_epoch ++
      get_current_epoch_attestations latest_attestations current_epoch slots_per_epoch
  let prev_epoch_start_slot := get_epoch_start_slot previous_epoch slots_per_epoch
  let next_epoch_start_slot := get_epoch_start_slot (current_epoch + 1) slots_per_epoch
  ((List.range' prev_epoch_start_slot (next_epoch_start_slot - prev_epoch_start_slot)).flatMap
      committees_at).foldl
    (fun latest cs =>
      crosslink_step participants validator_balances max_deposit_amount current_epoch
        attestations latest cs.1 cs.2)
    latest_crosslinks

/-- Embedding of the `attesting_validator_indices` computation in the
crosslink-reward part of `process_rewards_and_penalties` (epoch_processing.py
lines 625-650): on `NoWinningRootError` an empty attester set is
substituted. -/
def crosslink_reward_attesters (participants : AttestationData R → ℕ → List ℕ)
    (validator_balances : ℕ → ℕ) (max_deposit_amount : ℕ)
    (shard : ℕ) (filtered_attestations : List (PendingAttestationRecord R)) : Finset ℕ :=
  match get_winning_root participants validator_balances max_deposit_amount shard
      filtered_attestations with
  | none => ∅
  | some (winning_root, _) =>
    get_shard_block_root_attester_indices participants filtered_attestations shard winning_root

end Helpers

/-! ## Justification and finalization (`_get_finalized_epoch`) -/

/-- Embedding of `_get_finalized_epoch` (epoch_processing.py lines 112-146).
The bitfield is a natural; epochs are integers because the source computes
`previous_epoch - 2` on Python ints.  The second output reports which rule
fired (for testing, as in the source). -/
def get_finalized_epoch (justification_bitfield : ℕ)
    (previous_justified_epoch justified_epoch finalized_epoch previous_epoch : ℤ) :
    ℤ × ℕ :=
  let rule_1 : Bool :=
    ((justification_bitfield >>> 1) % 8 == 7) &&
      (previous_justified_epoch == previous_epoch - 2)
  let rule_2 : Bool :=
    ((justification_bitfield >>> 1) % 4 == 3) &&
      (previous_justified_epoch == previous_epoch - 1)
  let rule_3 : Bool :=
    (justification_bitfield % 8 == 7) && (justified_epoch == previous_epoch - 1)
  let rule_4 : Bool :=
    (justification_bitfield % 4 == 3) && (justified_epoch == previous_epoch)
  if rule_4 then (justified_epoch, 4)
  else if rule_3 then (justified_epoch, 3)
  else if rule_2 then (previous_justified_epoch, 2)
  else if rule_1 then (previous_justified_epoch, 1)
  else (finalized_epoch, 0)

/-- The FFG bookkeeping fields of `BeaconState` read and written by
`process_justification`. -/
structure JustificationState where
  previous_justified_epoch : ℤ
  justified_epoch : ℤ
  finalized_epoch : ℤ
  justification_bitfield : ℕ
deriving DecidableEq, Repr

/-- Embedding of the `justification_bitfield` update of
`process_justification` (epoch_processing.py lines 161-169), parametrized by
the two justifiability booleans computed by
`_current_previous_epochs_justifiable` (whose inputs are external helpers).
-/
def process_justification_bitfield (justification_bitfield : ℕ)
    (current_epoch_justifiable previous_epoch_justifiable : Bool) : ℕ :=
  let b := justification_bitfield <<< 1
  if previous_epoch_justifiable && current_epoch_justifiable then b ||| 3
  else if previous_epoch_justifiable then b ||| 2
  else if current_epoch_justifiable then b ||| 1
  else b

/-- Embedding of `process_justification` (epoch_processing.py lines
149-191), parametrized by the current/previous epochs and the two
justifiability booleans. -/
def process_justification (s : JustificationState)
    (current_epoch previous_epoch : ℤ)
    (current_epoch_justifiable previous_epoch_justifiable : Bool) :
    JustificationState :=
  let justification_bitfield :=
    process_justification_bitfield s.justification_bitfield
      current_epoch_justifiable previous_epoch_justifiable
  let new_justified_epoch :=
    if current_epoch_justifiable then current_epoch
    else if previous_epoch_justifiable then previous_epoch
    else s.justified_epoch
  let finalized_epoch :=
    (get_finalized_epoch justification_bitfield s.previous_justified_epoch
      s.justified_epoch s.finalized_epoch previous_epoch).1
  { previous_justified_epoch := s.justified_epoch
    justified_epoch := new_justified_epoch
    finalized_epoch := finalized_epoch
    justification_bitfield := justification_bitfield }

/-! ## Rewards and penalties -/

/-- Embedding of `state.update_validator_balance(index, balance)`: the
functional update of one balance (spec §3: balances are indexed 1:1 with the
registry). -/
def update_validator_balance (validator_balances : ℕ → ℕ)
    (index value : ℕ) : ℕ → ℕ :=
  fun j => if j = index then value else validator_balances j

/-- A `for index in indices: state = state.update_validator_balance(index,
f(state, index))` loop of `process_rewards_and_penalties`, threaded over the
balance map.  `f` receives the balances current at that iteration, as in the
source.  The source iterates Python sets in unspecified order; the embedding
iterates a list, and the characterization lemma shows any duplicate-free
order yields the same map. -/
def balance_loop (validator_balances : ℕ → ℕ)
    (f : (ℕ → ℕ) → ℕ → ℕ) (indices : List ℕ) : ℕ → ℕ :=
  indices.foldl (fun bal index => update_validator_balance bal index (f bal index))
    validator_balances

/-- Embedding of the `epochs_since_finality <= 4` branch of
`process_rewards_and_penalties` (epoch_processing.py lines 425-516): the
FFG-source, FFG-target and head reward/penalty sub-phases in that order,
then the inclusion-distance reward.  The attester-index sets, the
`base_reward_map` and the `inclusion_distance_map` are the values the
surrounding code computed before the branch (their builders involve external
helpers); `max(x - y, 0)` on balances is `Nat` subtraction. -/
def rewards_normal_case (validator_balances base_reward_map : ℕ → ℕ)
    (prev_epoch_active A_src A_tgt A_head A_att : Finset ℕ)
    (inclusion_distance_map : ℕ → ℕ)
    (previous_total_balance max_deposit_amount min_attestation_inclusion_delay : ℕ) :
    ℕ → ℕ :=
  let src_attesting_balance := get_total_balance validator_balances A_src max_deposit_amount
  let b1 := balance_loop validator_balances
    (fun bal index =>
      bal index + base_reward_map index * src_attesting_balance / previous_total_balance)
    (A_src.sort (· ≤ ·))
  let b2 := balance_loop b1 (fun bal index => bal index - base_reward_map index)
    ((prev_epoch_active \ A_src).sort (· ≤ ·))
  let tgt_attesting_balance := get_total_balance b2 A_tgt max_deposit_amount
  let b3 := balance_loop b2
    (fun bal index =>
      bal index + base_reward_map index * tgt_attesting_balance / previous_total_balance)
    (A_tgt.sort (· ≤ ·))
  let b4 := balance_loop b3 (fun bal index => bal index - base_reward_map index)
    ((prev_epoch_active \ A_tgt).sort (· ≤ ·))
  let head_attesting_balance := get_total_balance b4 A_head max_deposit_amount
  let b5 := balance_loop b4
    (fun bal index =>
      bal index + base_reward_map index * head_attesting_balance / previous_total_balance)
    (A_head.sort (· ≤ ·))
  let b6 := balance_loop b5 (fun bal index => bal index - base_reward_map index)
    ((prev_epoch_active \ A_head).sort (· ≤ ·))
  balance_loop b6
    (fun bal index =>
      bal index + base_reward_map index * min_attestation_inclusion_delay /
        inclusion_distance_map index)
    (A_att.sort (· ≤ ·))

/-- Embedding of the `epochs_since_finality > 4` (inactivity leak) branch of
`process_rewards_and_penalties` (epoch_processing.py lines 517-583): the
FFG-source and FFG-target inactivity penalties, the head base penalty, the
extra penalty for penalized validators, and the inclusion-distance penalty,
in source order.  The last penalty `base - base·MIN_DELAY/D` is computed on
Python ints (it can be negative, making `max(balance - penalty, 0)` exceed
the old balance), so that loop is carried out in `ℤ` with the final
`Int.toNat` playing the role of `max(·, 0)`. -/
def rewards_inactivity_case (validator_balances base_reward_map : ℕ → ℕ)
    (prev_epoch_active A_src A_tgt A_head A_att : Finset ℕ)
    (inclusion_distance_map penalized_epoch_map : ℕ → ℕ)
    (current_epoch epochs_since_finality inactivity_penalty_quotient
      max_deposit_amount min_attestation_inclusion_delay : ℕ) : ℕ → ℕ :=
  let b1 := balance_loop validator_balances
    (fun bal index =>
      bal index - (base_reward_map index +
        get_effective_balance bal index max_deposit_amount * epochs_since_finality /
          inactivity_penalty_quotient / 2))
    ((prev_epoch_active \ A_src).sort (· ≤ ·))
  let b2 := balance_loop b1
    (fun bal index =>
      bal index - (base_reward_map index +
        get_effective_balance bal index max_deposit_amount * epochs_since_finality /
          inactivity_penalty_quotient / 2))
    ((prev_epoch_active \ A_tgt).sort (· ≤ ·))
  let b3 := balance_loop b2 (fun bal index => bal index - base_reward_map index)
    ((prev_epoch_active \ A_head).sort (· ≤ ·))
  let b4 := balance_loop b3
    (fun bal index =>
      if penalized_epoch_map index ≤ current_epoch then
        bal index - (2 * (base_reward_map index +
          get_effective_balance bal index max_deposit_amount * epochs_since_finality /
            inactivity_penalty_quotient / 2) + base_reward_map index)
      else bal index)
    (prev_epoch_active.sort (· ≤ ·))
  balance_loop b4
    (fun bal index =>
      ((bal index : ℤ) - ((base_reward_map index : ℤ) -
        ((base_reward_map index * min_attestation_inclusion_delay /
          inclusion_distance_map index : ℕ) : ℤ))).toNat)
    (A_att.sort (· ≤ ·))

/-- Model of `functools.reduce(lambda a, b: a + b, tuples)` without initial
value (epoch_processing.py lines 300-314): over an empty list Python raises
`TypeError`, modelled as `none`; otherwise the concatenation. -/
def reduce_concat : List (List ℕ) → Option (List ℕ)
  | [] => none
  | x :: xs => some (xs.foldl (· ++ ·) x)

/-- Embedding of the `try: set(reduce(...)) except TypeError: set()` blocks
of `process_rewards_and_penalties` (epoch_processing.py lines 298-317,
324-343, 357-376, 384-403): the participant tuples of the attestations are
concatenated by `reduce` and collapsed to a set, and the `TypeError` of the
empty reduce is caught by substituting the empty set. -/
def attester_indices_caught {R : Type}
    (participants : AttestationData R → ℕ → List ℕ)
    (attestations : List (PendingAttestationRecord R)) : Finset ℕ :=
  match reduce_concat (attestations.map fun a => participants a.data a.aggregation_bitfield) with
  | none => ∅
  | some l => l.toFinset

/-- The keyword parameters accepted by `get_winning_root`
(epoch_processing_helpers.py lines 120-126; the signature is keyword-only).
-/
def get_winning_root_keyword_parameters : List String :=
  ["state", "shard", "attestations", "max_deposit_amount", "committee_config"]

/-- The keyword arguments passed to `get_winning_root` by the
crosslink-reward part of `process_rewards_and_penalties`
(epoch_processing.py lines 626-635). -/
def crosslink_reward_get_winning_root_call_keywords : List String :=
  ["state", "shard", "attestations", "genesis_epoch", "epoch_length",
    "max_deposit_amount", "target_committee_size", "shard_count"]

/-! ## Validator registry and shuffling seed rotation -/

/-- Modelled from the spec: `is_power_of_two` (eth2._utils.numeric, not under
src/); spec §4.8 uses it as "`Δ` is a positive power of two".  A power of
two `2^k = value` has `k ≤ value`, so the bounded search is exact (and `0`
is not a power of two). -/
def is_power_of_two (value : ℕ) : Bool :=
  (List.range (value + 1)).any fun k => 2 ^ k == value

/-- The one field of a validator record the embedded code reads directly
(`validator_registry[index].penalized_epoch`, epoch_processing.py line 557).
-/
structure ValidatorRecord where
  penalized_epoch : ℕ
deriving DecidableEq, Repr

/-- The fields of `BeaconState` read and written by
`process_validator_registry`. -/
structure RegistryState (R : Type) where
  slot : ℕ
  validator_registry : List ValidatorRecord
  validator_registry_update_epoch : ℕ
  finalized_epoch : ℕ
  previous_shuffling_epoch : ℕ
  previous_shuffling_start_shard : ℕ
  previous_shuffling_seed : R
  current_shuffling_epoch : ℕ
  current_shuffling_start_shard : ℕ
  current_shuffling_seed : R
  latest_crosslinks : List (CrosslinkRecord R)
deriving DecidableEq, Repr

/-- Embedding of `_check_if_update_validator_registry` (epoch_processing.py
lines 674-695).  The external `get_current_epoch_committee_count` is passed
in as `num_shards_in_committees`; the early-returning `for` loop over the
shard set becomes `List.any` (Python-set deduplication cannot change an
`any`).  Crosslink lookups use the §3 invariant `shard < SHARD_COUNT =
|latest_crosslinks|`. -/
def check_if_update_validator_registry {R : Type} [Inhabited R]
    (s : RegistryState R) (shard_count num_shards_in_committees : ℕ) : Bool × ℕ :=
  if s.finalized_epoch ≤ s.validator_registry_update_epoch then (false, 0)
  else if ((List.range num_shards_in_committees).map fun i =>
        (s.current_shuffling_start_shard + i) % shard_count).any
      (fun shard =>
        decide ((s.latest_crosslinks.getD shard ⟨0, default⟩).epoch ≤
          s.validator_registry_update_epoch)) then
    (false, 0)
  else (true, num_shards_in_committees)

/-- Embedding of `update_validator_registry` (epoch_processing.py lines
698-700): the source is a `TODO` shell returning the state unchanged. -/
def update_validator_registry {R : Type} (s : RegistryState R) : RegistryState R :=
  s

/-- Embedding of `process_validator_registry` (epoch_processing.py lines
703-769): rotate `previous_shuffling_*` from `current_shuffling_*`
unconditionally, then either the triggered registry update or the
power-of-two cadence seed rotation.  `generate_seed` stands for the external
`helpers.generate_seed`, applied to the staged state and its (already
updated) `current_shuffling_epoch`. -/
def process_validator_registry {R : Type} [Inhabited R] (s : RegistryState R)
    (shard_count slots_per_epoch num_shards_in_committees : ℕ)
    (generate_seed : RegistryState R → ℕ → R) : RegistryState R :=
  let s1 := { s with
    previous_shuffling_epoch := s.current_shuffling_epoch
    previous_shuffling_start_shard := s.current_shuffling_start_shard
    previous_shuffling_seed := s.current_shuffling_seed }
  let current_epoch := slot_to_epoch s1.slot slots_per_epoch
  let next_epoch := current_epoch + 1
  let check := check_if_update_validator_registry s1 shard_count num_shards_in_committees
  if check.1 then
    let s2 := update_validator_registry s1
    let s3 := { s2 with current_shuffling_epoch := next_epoch }
    let s4 := { s3 with current_shuffling_start_shard :=
      (s3.current_shuffling_start_shard + check.2) % shard_count }
    { s4 with current_shuffling_seed := generate_seed s4 s4.current_shuffling_epoch }
  else
    if is_power_of_two (current_epoch - s1.validator_registry_update_epoch) then
      let s2 := { s1 with current_shuffling_epoch := next_epoch }
      { s2 with current_shuffling_seed := generate_seed s2 s2.current_shuffling_epoch }
    else s1

/-! ## Final updates -/

/-- The fields of `BeaconState` read and written by `process_final_updates`.
-/
structure FinalUpdatesState (R : Type) where
  slot : ℕ
  latest_active_index_roots : List R
  latest_slashed_balances : List ℕ
  latest_randao_mixes : List R
  latest_attestations : List (PendingAttestationRecord R)
deriving DecidableEq, Repr

/-- Modelled from the spec: `get_randao_mix` (eth2.beacon.helpers, not under
src/); spec §3/§6: the ring-buffered read
`latest_randao_mixes[epoch % LATEST_RANDAO_MIXES_LENGTH]` (in bounds under
the §3 length invariant). -/
def get_randao_mix {R : Type} [Inhabited R] (latest_randao_mixes : List R)
    (epoch latest_randao_mixes_length : ℕ) : R :=
  latest_randao_mixes.getD (epoch % latest_randao_mixes_length) default

/-- Embedding of `_update_latest_active_index_roots` (epoch_processing.py
lines 775-807).  The external `get_active_validator_indices` and the
`hash_eth2` of the concatenated 32-byte indices are the parameters
`active_validator_indices` (by epoch) and `hash_index_root`. -/
def update_latest_active_index_roots {R : Type} (s : FinalUpdatesState R)
    (active_validator_indices : ℕ → List ℕ) (hash_index_root : List ℕ → R)
    (slots_per_epoch activation_exit_delay latest_active_index_roots_length : ℕ) :
    FinalUpdatesState R :=
  let next_epoch := slot_to_epoch s.slot slots_per_epoch + 1
  let index_root := hash_index_root (active_validator_indices (next_epoch + activation_exit_delay))
  { s with latest_active_index_roots :=
      (s.latest_active_index_roots.set
        ((next_epoch + activation_exit_delay) % latest_active_index_roots_length) index_root) }

/-- Embedding of `process_final_updates` (epoch_processing.py lines
810-846).  Note that the source indexes **both** ring-buffer writes,
`latest_slashed_balances` and `latest_randao_mixes`, with
`next_epoch % LATEST_SLASHED_EXIT_LENGTH` (lines 820 and 825), while the
randao value is read via `get_randao_mix` with
`LATEST_RANDAO_MIXES_LENGTH`. -/
def process_final_updates {R : Type} [Inhabited R] (s : FinalUpdatesState R)
    (active_validator_indices : ℕ → List ℕ) (hash_index_root : List ℕ → R)
    (slots_per_epoch activation_exit_delay latest_active_index_roots_length
      latest_slashed_exit_length latest_randao_mixes_length : ℕ) :
    FinalUpdatesState R :=
  let current_epoch := slot_to_epoch s.slot slots_per_epoch
  let next_epoch := current_epoch + 1
  let s1 := update_latest_active_index_roots s active_validator_indices hash_index_root
    slots_per_epoch activation_exit_delay latest_active_index_roots_length
  let s2 := { s1 with
    latest_slashed_balances :=
      (s1.latest_slashed_balances.set (next_epoch % latest_slashed_exit_length)
        (s1.latest_slashed_balances.getD (current_epoch % latest_slashed_exit_length) 0))
    latest_randao_mixes :=
      (s1.latest_randao_mixes.set (next_epoch % latest_slashed_exit_length)
        (get_randao_mix s1.latest_randao_mixes current_epoch latest_randao_mixes_length)) }
  { s2 with latest_attestations :=
      (s2.latest_attestations.filter fun a =>
        decide (current_epoch ≤ slot_to_epoch a.data.slot slots_per_epoch)) }

/-- Claim C1: the finalization step evaluates the four rules in priority order
4, 3, 2, 1 and returns the first match: rule 4 (`bitfield &&& 0b11 = 0b11`
and `justified_epoch = previous_epoch`) and rule 3 (`bitfield &&& 0b111 =
0b111` and `justified_epoch = previous_epoch - 1`) yield the pre-state
justified epoch; rule 2 (`(bitfield >>> 1) &&& 0b11 = 0b11` and
`previous_justified_epoch = previous_epoch - 1`) and rule 1
(`(bitfield >>> 1) &&& 0b111 = 0b111` and `previous_justified_epoch =
previous_epoch - 2`) yield the pre-state previous justified epoch; if no
rule matches, the pre-state finalized epoch is kept. -/
theorem get_finalized_epoch_rule_priority (b : ℕ) (pj j f pe : ℤ) :
    get_finalized_epoch b pj j f pe =
      if b &&& 3 = 3 ∧ j = pe then (j, 4)
      else if b &&& 7 = 7 ∧ j = pe - 1 then (j, 3)
      else if (b >>> 1) &&& 3 = 3 ∧ pj = pe - 1 then (pj, 2)
      else if (b >>> 1) &&& 7 = 7 ∧ pj = pe - 2 then (pj, 1)
      else (f, 0) := by
  have h3 : ∀ n : ℕ, n &&& 3 = n % 4 := fun n => Nat.and_pow_two_sub_one_eq_mod n 2
  have h7 : ∀ n : ℕ, n &&& 7 = n % 8 := fun n => Nat.and_pow_two_sub_one_eq_mod n 3
  simp only [get_finalized_epoch, h3, h7, Bool.and_eq_true, beq_iff_eq,
    Bool.if_true_left, decide_eq_true_eq]

/-- Characterization of one balance loop: when the index list has no
duplicates and the written value depends only on the balance of the index
being written (true of every loop of `process_rewards_and_penalties`), the
loop sends each listed index `j` to `f` of its entry balance and leaves
every other balance unchanged — in particular the order of iteration over
the Python set is immaterial. -/
theorem balance_loop_eq (f : (ℕ → ℕ) → ℕ → ℕ)
    (hf : ∀ b b' i, b i = b' i → f b i = f b' i) :
    ∀ (indices : List ℕ), indices.Nodup → ∀ (validator_balances : ℕ → ℕ) (j : ℕ),
      balance_loop validator_balances f indices j =
        if j ∈ indices then f validator_balances j else validator_balances j := by
  intro indices
  induction indices with
  | nil => intro _ bal j; simp [balance_loop]
  | cons i t ih =>
    intro hnd bal j
    rw [List.nodup_cons] at hnd
    have hstep : balance_loop bal f (i :: t) =
        balance_loop (update_validator_balance bal i (f bal i)) f t := rfl
    rw [hstep, ih hnd.2]
    by_cases hjt : j ∈ t
    · have hji : j ≠ i := fun h => hnd.1 (h ▸ hjt)
      simp only [hjt, if_true, List.mem_cons, or_true]
      exact hf _ _ _ (by simp [update_validator_balance, hji])
    · by_cases hji : j = i
      · subst hji
        simp [hjt, update_validator_balance]
      · simp [hjt, hji, update_validator_balance]

/-- A reward loop over `P` followed by a penalty loop over `active \ P`
(one FFG sub-phase of the normal case) acts pointwise: members of `P` gain
`base · B / T`, active non-members lose `base` (saturating), everyone else
is untouched. -/
theorem ffg_phase_eq (bal base : ℕ → ℕ) (active P : Finset ℕ) (B T : ℕ) :
    balance_loop
        (balance_loop bal (fun b i => b i + base i * B / T) (P.sort (· ≤ ·)))
        (fun b i => b i - base i) ((active \ P).sort (· ≤ ·)) =
      fun j => if j ∈ P then bal j + base j * B / T
        else if j ∈ active then bal j - base j else bal j := by
  funext j
  rw [balance_loop_eq _ (fun b b' i h => by simp [h]) _ (Finset.sort_nodup _ _),
    balance_loop_eq _ (fun b b' i h => by simp [h]) _ (Finset.sort_nodup _ _)]
  by_cases hP : j ∈ P <;> by_cases hA : j ∈ active <;>
    simp [Finset.mem_sort, Finset.mem_sdiff, hP, hA]

/-- Claim C3: in normal operation (`next_epoch - finalized_epoch ≤ 4`), for
each of the three FFG participation sets — source, target, head, in that
order — every validator in the set has its balance increased by
`base_reward(i) · B_P / T` (truncating division), where `B_P` is the sum of
effective balances over the set (at that sub-phase's entry) and `T` the
previous total balance; every previous-epoch-active validator not in the
set has its balance decreased by `base_reward(i)`, saturating at `0`; and
every previous-epoch attester additionally gains
`base_reward(i) · MIN_ATTESTATION_INCLUSION_DELAY / D[i]`. -/
theorem rewards_normal_case_spec (bal base : ℕ → ℕ)
    (active A_src A_tgt A_head A_att : Finset ℕ) (D : ℕ → ℕ) (T maxd delay : ℕ) :
    ∀ j, rewards_normal_case bal base active A_src A_tgt A_head A_att D T maxd delay j =
      (let b1 : ℕ → ℕ := fun i =>
        if i ∈ A_src then bal i + base i * get_total_balance bal A_src maxd / T
        else if i ∈ active then bal i - base i else bal i
       let b2 : ℕ → ℕ := fun i =>
        if i ∈ A_tgt then b1 i + base i * get_total_balance b1 A_tgt maxd / T
        else if i ∈ active then b1 i - base i else b1 i
       let b3 : ℕ → ℕ := fun i =>
        if i ∈ A_head then b2 i + base i * get_total_balance b2 A_head maxd / T
        else if i ∈ active then b2 i - base i else b2 i
       if j ∈ A_att then b3 j + base j * delay / D j else b3 j) := by
  intro j
  simp only [rewards_normal_case, ffg_phase_eq]
  rw [balance_loop_eq _ (fun b b' i h => by simp [h]) _ (Finset.sort_nodup _ _)]
  by_cases hAtt : j ∈ A_att <;> simp [Finset.mem_sort, hAtt]

/-- Pointwise form of `balance_loop` over the sorted elements of a finset. -/
theorem balance_loop_sort_eq (f : (ℕ → ℕ) → ℕ → ℕ)
    (hf : ∀ b b' i, b i = b' i → f b i = f b' i) (s : Finset ℕ) (bal : ℕ → ℕ) :
    balance_loop bal f (s.sort (· ≤ ·)) = fun j => if j ∈ s then f bal j else bal j := by
  funext j
  rw [balance_loop_eq f hf _ (Finset.sort_nodup _ _)]
  simp [Finset.mem_sort]

/-- An inactivity-penalty loop over `active \ P`, pointwise. -/
theorem inactivity_phase_eq (bal base : ℕ → ℕ) (active P : Finset ℕ) (esf q maxd : ℕ) :
    balance_loop bal
        (fun b i => b i - (base i + get_effective_balance b i maxd * esf / q / 2))
        ((active \ P).sort (· ≤ ·)) =
      fun j => if j ∈ active ∧ j ∉ P then
        bal j - (base j + get_effective_balance bal j maxd * esf / q / 2) else bal j := by
  rw [balance_loop_sort_eq _ (fun b b' i h => by simp [get_effective_balance, h])]
  funext j
  simp [Finset.mem_sdiff]

/-- A plain base-reward penalty loop over `active \ P`, pointwise. -/
theorem base_penalty_phase_eq (bal base : ℕ → ℕ) (active P : Finset ℕ) :
    balance_loop bal (fun b i => b i - base i) ((active \ P).sort (· ≤ ·)) =
      fun j => if j ∈ active ∧ j ∉ P then bal j - base j else bal j := by
  rw [balance_loop_sort_eq _ (fun b b' i h => by simp [h])]
  funext j
  simp [Finset.mem_sdiff]

/-- The penalized-validator loop over all active validators, pointwise. -/
theorem penalized_phase_eq (bal base pen : ℕ → ℕ) (active : Finset ℕ)
    (ce esf q maxd : ℕ) :
    balance_loop bal
        (fun b i => if pen i ≤ ce then
          b i - (2 * (base i + get_effective_balance b i maxd * esf / q / 2) + base i)
          else b i)
        (active.sort (· ≤ ·)) =
      fun j => if j ∈ active ∧ pen j ≤ ce then
        bal j - (2 * (base j + get_effective_balance bal j maxd * esf / q / 2) + base j)
        else bal j := by
  rw [balance_loop_sort_eq _ (fun b b' i h => by simp [get_effective_balance, h])]
  funext j
  by_cases hA : j ∈ active <;> by_cases hp : pen j ≤ ce <;> simp [hA, hp]

/-- The inclusion-distance penalty loop over the attesters, pointwise. -/
theorem inclusion_penalty_phase_eq (bal base D : ℕ → ℕ) (A_att : Finset ℕ) (delay : ℕ) :
    balance_loop bal
        (fun b i => ((b i : ℤ) - ((base i : ℤ) -
          ((base i * delay / D i : ℕ) : ℤ))).toNat)
        (A_att.sort (· ≤ ·)) =
      fun j => if j ∈ A_att then
        ((bal j : ℤ) - ((base j : ℤ) - ((base j * delay / D j : ℕ) : ℤ))).toNat
        else bal j := by
  rw [balance_loop_sort_eq _ (fun b b' i h => by simp [h])]

/-- Claim C4: in the inactivity-leak case (`next_epoch - finalized_epoch > 4`,
written `esf`), every previous-epoch-active validator outside the FFG-source
set, and again every one outside the FFG-target set, loses exactly
`base_reward(i) + effective_balance(i) · esf / INACTIVITY_PENALTY_QUOTIENT /
2` (truncating divisions in that order, saturating subtraction); every one
outside the head set loses `base_reward(i)`; every active validator with
`penalized_epoch ≤ current_epoch` additionally loses `2 ·
inactivity_penalty(i) + base_reward(i)`; and every previous-epoch attester
loses `base_reward(i) - base_reward(i) · MIN_ATTESTATION_INCLUSION_DELAY /
D[i]` (computed on integers, the final clamp at `0` being `Int.toNat`).
Each sub-phase reads the balances left by the previous one. -/
theorem rewards_inactivity_case_spec (bal base : ℕ → ℕ)
    (active A_src A_tgt A_head A_att : Finset ℕ) (D pen : ℕ → ℕ)
    (ce esf q maxd delay : ℕ) :
    ∀ j, rewards_inactivity_case bal base active A_src A_tgt A_head A_att D pen
        ce esf q maxd delay j =
      (let b1 : ℕ → ℕ := fun i =>
        if i ∈ active ∧ i ∉ A_src then
          bal i - (base i + get_effective_balance bal i maxd * esf / q / 2) else bal i
       let b2 : ℕ → ℕ := fun i =>
        if i ∈ active ∧ i ∉ A_tgt then
          b1 i - (base i + get_effective_balance b1 i maxd * esf / q / 2) else b1 i
       let b3 : ℕ → ℕ := fun i =>
        if i ∈ active ∧ i ∉ A_head then b2 i - base i else b2 i
       let b4 : ℕ → ℕ := fun i =>
        if i ∈ active ∧ pen i ≤ ce then
          b3 i - (2 * (base i + get_effective_balance b3 i maxd * esf / q / 2) + base i)
          else b3 i
       if j ∈ A_att then
        ((b4 j : ℤ) - ((base j : ℤ) - ((base j * delay / D j : ℕ) : ℤ))).toNat
        else b4 j) := by
  intro j
  simp only [rewards_inactivity_case, inactivity_phase_eq, base_penalty_phase_eq,
    penalized_phase_eq, inclusion_penalty_phase_eq]

section WinningRoot

variable {R : Type} [LinearOrder R]

/-- One step of the winning-root fold preserves the invariant `WinInv`. -/
theorem winning_root_step_inv (bal : R → ℕ) (seen : List R) (acc : Option R × ℕ)
    (r : R) (h : WinInv bal seen acc) :
    WinInv bal (seen ++ [r]) (winning_root_step bal acc r) := by
  obtain ⟨w, wb⟩ := acc
  match w with
  | none =>
    obtain ⟨hwb, hall⟩ := h
    subst hwb
    by_cases hpos : 0 < bal r
    · have hstep : winning_root_step bal (none, 0) r = (some r, bal r) := by
        simp [winning_root_step, hpos]
      rw [hstep]
      refine ⟨hpos, rfl, by simp, fun x hx => ?_, fun x hx hbx => ?_⟩
      · rcases List.mem_append.mp hx with hx | hx
        · exact hall x hx ▸ Nat.zero_le _
        · rw [List.mem_singleton.mp hx]
      · rcases List.mem_append.mp hx with hx | hx
        · exact absurd hbx (by rw [hall x hx]; exact fun e => hpos.ne e)
        · rw [List.mem_singleton.mp hx]
    · have hz : bal r = 0 := Nat.eq_zero_of_not_pos hpos
      have hstep : winning_root_step bal (none, 0) r = (none, 0) := by
        simp [winning_root_step, hpos, hz]
      rw [hstep]
      refine ⟨rfl, fun x hx => ?_⟩
      rcases List.mem_append.mp hx with hx | hx
      · exact hall x hx
      · rw [List.mem_singleton.mp hx]; exact hz
  | some w0 =>
    obtain ⟨hwb, hbw, hmem, hmax, hmin⟩ := h
    by_cases hlt : wb < bal r
    · have hstep : winning_root_step bal (some w0, wb) r = (some r, bal r) := by
        simp [winning_root_step, hlt]
      rw [hstep]
      refine ⟨lt_of_le_of_lt (Nat.zero_le _) hlt, rfl, by simp, fun x hx => ?_,
        fun x hx hbx => ?_⟩
      · rcases List.mem_append.mp hx with hx | hx
        · exact le_of_lt (lt_of_le_of_lt (hmax x hx) hlt)
        · rw [List.mem_singleton.mp hx]
      · rcases List.mem_append.mp hx with hx | hx
        · exact absurd hbx (Nat.ne_of_lt (lt_of_le_of_lt (hmax x hx) hlt))
        · rw [List.mem_singleton.mp hx]
    · by_cases heq : bal r = wb
      · by_cases hrw : r < w0
        · have hstep : winning_root_step bal (some w0, wb) r = (some r, wb) := by
            simp [winning_root_step, hlt, heq, hwb, hrw]
          rw [hstep]
          refine ⟨hwb, heq, by simp, fun x hx => ?_, fun x hx hbx => ?_⟩
          · rcases List.mem_append.mp hx with hx | hx
            · exact hmax x hx
            · rw [List.mem_singleton.mp hx, heq]
          · rcases List.mem_append.mp hx with hx | hx
            · exact le_of_lt (lt_of_lt_of_le hrw (hmin x hx hbx))
            · rw [List.mem_singleton.mp hx]
        · have hstep : winning_root_step bal (some w0, wb) r = (some w0, wb) := by
            simp [winning_root_step, hlt, heq, hwb, hrw]
          rw [hstep]
          refine ⟨hwb, hbw, List.mem_append.mpr (Or.inl hmem), fun x hx => ?_,
            fun x hx hbx => ?_⟩
          · rcases List.mem_append.mp hx with hx | hx
            · exact hmax x hx
            · rw [List.mem_singleton.mp hx, heq]
          · rcases List.mem_append.mp hx with hx | hx
            · exact hmin x hx hbx
            · rw [List.mem_singleton.mp hx]; exact le_of_not_lt hrw
      · have hstep : winning_root_step bal (some w0, wb) r = (some w0, wb) := by
          simp [winning_root_step, hlt, heq]
        rw [hstep]
        refine ⟨hwb, hbw, List.mem_append.mpr (Or.inl hmem), fun x hx => ?_,
          fun x hx hbx => ?_⟩
        · rcases List.mem_append.mp hx with hx | hx
          · exact hmax x hx
          · rw [List.mem_singleton.mp hx]; exact le_of_not_lt hlt
        · rcases List.mem_append.mp hx with hx | hx
          · exact hmin x hx hbx
          · exact absurd hbx (by rw [List.mem_singleton.mp hx] at hbx ⊢; exact heq)

/-- The winning-root fold maintains `WinInv` over any processed list. -/
theorem winning_root_foldl_inv (bal : R → ℕ) :
    ∀ (l seen : List R) (acc : Option R × ℕ), WinInv bal seen acc →
      WinInv bal (seen ++ l) (l.foldl (winning_root_step bal) acc) := by
  intro l
  induction l with
  | nil => intro seen acc h; simpa using h
  | cons r t ih =>
    intro seen acc h
    have h2 := ih (seen ++ [r]) _ (winning_root_step_inv bal seen acc r h)
    simpa [List.append_assoc] using h2

/-- Invariant `WinInv` holds of the full fold from the source's initial accumulator
`(None, 0)`. -/
theorem winning_root_foldl_inv_full (bal : R → ℕ) (l : List R) :
    WinInv bal l (l.foldl (winning_root_step bal) (none, 0)) := by
  have h := winning_root_foldl_inv bal l [] (none, 0) ⟨rfl, by simp⟩
  simpa using h

/-- The winning-root fold returns `none` exactly when every candidate has
zero balance (in particular when there is no candidate). -/
theorem winning_root_foldl_none_iff (bal : R → ℕ) (l : List R) :
    (l.foldl (winning_root_step bal) (none, 0)).1 = none ↔ ∀ r ∈ l, bal r = 0 := by
  have h := winning_root_foldl_inv_full bal l
  rcases he : l.foldl (winning_root_step bal) (none, 0) with ⟨w, wb⟩
  rw [he] at h
  match w with
  | none => exact ⟨fun _ => h.2, fun _ => rfl⟩
  | some w0 =>
    obtain ⟨hwb, hbw, hmem, _, _⟩ := h
    exact ⟨fun hc => absurd hc (by simp), fun hall =>
      absurd hwb (by rw [← hbw, hall w0 hmem]; exact lt_irrefl 0)⟩

/-- The winning-root fold is invariant under permutation of the candidate
list: the outcome is the maximal balance together with the least root
attaining it, both determined by membership alone. -/
theorem winning_root_foldl_perm (bal : R → ℕ) {l l' : List R} (hp : l.Perm l') :
    l.foldl (winning_root_step bal) (none, 0) =
      l'.foldl (winning_root_step bal) (none, 0) := by
  have h1 := winning_root_foldl_inv_full bal l
  have h2 := winning_root_foldl_inv_full bal l'
  rcases h1e : l.foldl (winning_root_step bal) (none, 0) with ⟨w1, wb1⟩
  rcases h2e : l'.foldl (winning_root_step bal) (none, 0) with ⟨w2, wb2⟩
  rw [h1e] at h1
  rw [h2e] at h2
  match w1, w2 with
  | none, none =>
    obtain ⟨hz1, _⟩ := h1
    obtain ⟨hz2, _⟩ := h2
    rw [hz1, hz2]
  | none, some v2 =>
    obtain ⟨_, hall⟩ := h1
    obtain ⟨hpos2, hb2, hm2, _, _⟩ := h2
    exact absurd (hb2 ▸ hpos2) (by rw [hall v2 (hp.mem_iff.mpr hm2)]; exact lt_irrefl 0)
  | some v1, none =>
    obtain ⟨_, hall⟩ := h2
    obtain ⟨hpos1, hb1, hm1, _, _⟩ := h1
    exact absurd (hb1 ▸ hpos1) (by rw [hall v1 (hp.mem_iff.mp hm1)]; exact lt_irrefl 0)
  | some v1, some v2 =>
    obtain ⟨hpos1, hb1, hm1, hmax1, hmin1⟩ := h1
    obtain ⟨hpos2, hb2, hm2, hmax2, hmin2⟩ := h2
    have hv2l : v2 ∈ l := hp.mem_iff.mpr hm2
    have hv1l : v1 ∈ l' := hp.mem_iff.mp hm1
    have hwb : wb1 = wb2 :=
      le_antisymm (hb1 ▸ hmax2 v1 hv1l) (hb2 ▸ hmax1 v2 hv2l)
    have hvv : v1 = v2 :=
      le_antisymm (hmin1 v2 hv2l (hb2.trans hwb.symm)) (hmin2 v1 hv1l (hb1.trans hwb))
    rw [hwb, hvv]

/-- The attester-index set of a `(shard, root)` pair depends only on the
multiset of attestations: permuting the input leaves the union unchanged. -/
theorem get_shard_block_root_attester_indices_perm
    (participants : AttestationData R → ℕ → List ℕ)
    {atts atts' : List (PendingAttestationRecord R)} (h : atts.Perm atts')
    (shard : ℕ) (root : R) :
    get_shard_block_root_attester_indices participants atts shard root =
      get_shard_block_root_attester_indices participants atts' shard root := by
  unfold get_shard_block_root_attester_indices
  exact List.toFinset_eq_of_perm _ _ ((h.filter _).flatMap_right _)

/-- Permutation invariance of `get_winning_root` in its attestation
input. -/
theorem get_winning_root_perm (participants : AttestationData R → ℕ → List ℕ)
    (validator_balances : ℕ → ℕ) (max_deposit_amount shard : ℕ)
    {atts atts' : List (PendingAttestationRecord R)} (h : atts.Perm atts') :
    get_winning_root participants validator_balances max_deposit_amount shard atts =
      get_winning_root participants validator_balances max_deposit_amount shard atts' := by
  have hbal : get_shard_block_root_total_attesting_balance participants validator_balances
      max_deposit_amount atts shard =
        get_shard_block_root_total_attesting_balance participants validator_balances
          max_deposit_amount atts' shard := by
    funext root
    unfold get_shard_block_root_total_attesting_balance
    rw [get_shard_block_root_attester_indices_perm participants h]
  have hroots : ((atts.filter fun a => decide (a.data.shard = shard)).map
      fun a => a.data.shard_block_root).Perm
        ((atts'.filter fun a => decide (a.data.shard = shard)).map
          fun a => a.data.shard_block_root) := (h.filter _).map _
  simp only [get_winning_root]
  rw [hbal, winning_root_foldl_perm _ hroots]

/-- A root is a candidate of the winning-root fold iff some attestation for
the shard carries it. -/
theorem mem_candidate_roots_iff (shard : ℕ)
    (atts : List (PendingAttestationRecord R)) (r : R) :
    (r ∈ (atts.filter fun a => decide (a.data.shard = shard)).map
        fun a => a.data.shard_block_root) ↔
      ∃ a ∈ atts, a.data.shard = shard ∧ a.data.shard_block_root = r := by
  simp only [List.mem_map, List.mem_filter, decide_eq_true_eq]
  constructor
  · rintro ⟨a, ⟨ha, hsh⟩, hr⟩
    exact ⟨a, ha, hsh, hr⟩
  · rintro ⟨a, ha, hsh, hr⟩
    exact ⟨a, ⟨ha, hsh⟩, hr⟩

/-- Failure characterization: `get_winning_root` fails exactly when no attestation for the shard
carries a root of strictly positive attesting balance (in particular when
the candidate set is empty). -/
theorem get_winning_root_eq_none_iff (participants : AttestationData R → ℕ → List ℕ)
    (validator_balances : ℕ → ℕ) (max_deposit_amount shard : ℕ)
    (atts : List (PendingAttestationRecord R)) :
    get_winning_root participants validator_balances max_deposit_amount shard atts = none ↔
      ∀ a ∈ atts, a.data.shard = shard →
        get_shard_block_root_total_attesting_balance participants validator_balances
          max_deposit_amount atts shard a.data.shard_block_root = 0 := by
  have hiff := winning_root_foldl_none_iff
    (get_shard_block_root_total_attesting_balance participants validator_balances
      max_deposit_amount atts shard)
    ((atts.filter fun a => decide (a.data.shard = shard)).map
      fun a => a.data.shard_block_root)
  simp only [get_winning_root]
  rcases he : ((atts.filter fun a => decide (a.data.shard = shard)).map
      fun a => a.data.shard_block_root).foldl
      (winning_root_step (get_shard_block_root_total_attesting_balance participants
        validator_balances max_deposit_amount atts shard)) (none, 0) with ⟨w, wb⟩
  rw [he] at hiff
  rw [he]
  match w with
  | none =>
    constructor
    · intro _ a ha hsh
      exact hiff.mp rfl _ ((mem_candidate_roots_iff shard atts _).mpr ⟨a, ha, hsh, rfl⟩)
    · intro _
      rfl
  | some w0 =>
    constructor
    · intro hc
      exact Option.noConfusion hc
    · intro hall
      refine absurd (hiff.mpr fun r hr => ?_) (by simp)
      obtain ⟨a, ha, hsh, hr⟩ := (mem_candidate_roots_iff shard atts r).mp hr
      exact hr ▸ hall a ha hsh

/-- Claim C2: when `get_winning_root` returns, it returns the
shard-block-root maximizing the total attesting effective balance over the
roots attested for that shard, choosing the least root (the raw 32-byte
comparison is a linear order on equal-length byte strings) when several
roots share the strictly positive maximum; consequently the returned
`(root, balance)` pair is the same for every permutation (iteration order)
of the input attestation set. -/
theorem get_winning_root_spec (participants : AttestationData R → ℕ → List ℕ)
    (validator_balances : ℕ → ℕ) (max_deposit_amount shard : ℕ)
    (atts atts' : List (PendingAttestationRecord R)) (hperm : atts.Perm atts')
    (w : R) (b : ℕ)
    (hw : get_winning_root participants validator_balances max_deposit_amount shard atts =
      some (w, b)) :
    0 < b ∧
    b = get_shard_block_root_total_attesting_balance participants validator_balances
        max_deposit_amount atts shard w ∧
    (∃ a ∈ atts, a.data.shard = shard ∧ a.data.shard_block_root = w) ∧
    (∀ a ∈ atts, a.data.shard = shard →
      get_shard_block_root_total_attesting_balance participants validator_balances
        max_deposit_amount atts shard a.data.shard_block_root ≤ b) ∧
    (∀ a ∈ atts, a.data.shard = shard →
      get_shard_block_root_total_attesting_balance participants validator_balances
        max_deposit_amount atts shard a.data.shard_block_root = b →
      w ≤ a.data.shard_block_root) ∧
    get_winning_root participants validator_balances max_deposit_amount shard atts' =
      some (w, b) := by
  have hperm' := get_winning_root_perm participants validator_balances max_deposit_amount
    shard hperm
  have hinv := winning_root_foldl_inv_full
    (get_shard_block_root_total_attesting_balance participants validator_balances
      max_deposit_amount atts shard)
    ((atts.filter fun a => decide (a.data.shard = shard)).map
      fun a => a.data.shard_block_root)
  simp only [get_winning_root] at hw
  rcases he : ((atts.filter fun a => decide (a.data.shard = shard)).map
      fun a => a.data.shard_block_root).foldl
      (winning_root_step (get_shard_block_root_total_attesting_balance participants
        validator_balances max_deposit_amount atts shard)) (none, 0) with ⟨w1, wb1⟩
  rw [he] at hw hinv
  match w1, hw, hinv with
  | some w1', hw, hinv =>
    obtain ⟨hww, hbb⟩ : w1' = w ∧ wb1 = b := by
      simpa [Prod.ext_iff] using hw
    subst hww
    subst hbb
    obtain ⟨hpos, hbal, hmem, hmax, hmin⟩ := hinv
    refine ⟨hpos, hbal.symm, ?_, ?_, ?_, hperm' ▸ by simp only [get_winning_root]; rw [he]⟩
    · exact (mem_candidate_roots_iff shard atts w1').mp hmem
    · intro a ha hsh
      exact hmax _ ((mem_candidate_roots_iff shard atts _).mpr ⟨a, ha, hsh, rfl⟩)
    · intro a ha hsh hb
      exact hmin _ ((mem_candidate_roots_iff shard atts _).mpr ⟨a, ha, hsh, rfl⟩) hb

/-- Claim C6: `get_winning_root` fails with `NoWinningRoot` exactly when the
candidate root set for the shard is empty or no candidate root has strictly
positive attesting balance; this failure is caught locally in crosslink
processing (the shard is skipped: the crosslink list is returned unchanged)
and in crosslink-reward computation (an empty attester set is substituted),
so it never escapes `process_epoch`. -/
theorem no_winning_root_spec (participants : AttestationData R → ℕ → List ℕ)
    (validator_balances : ℕ → ℕ) (max_deposit_amount current_epoch shard : ℕ)
    (atts : List (PendingAttestationRecord R)) (latest : List (CrosslinkRecord R))
    (committee : List ℕ) :
    (get_winning_root participants validator_balances max_deposit_amount shard atts = none ↔
      ∀ a ∈ atts, a.data.shard = shard →
        get_shard_block_root_total_attesting_balance participants validator_balances
          max_deposit_amount atts shard a.data.shard_block_root = 0) ∧
    (get_winning_root participants validator_balances max_deposit_amount shard
        (filter_attestations_by_shard atts shard) = none →
      crosslink_step participants validator_balances max_deposit_amount current_epoch
        atts latest committee shard = latest) ∧
    (get_winning_root participants validator_balances max_deposit_amount shard atts = none →
      crosslink_reward_attesters participants validator_balances max_deposit_amount
        shard atts = ∅) := by
  refine ⟨get_winning_root_eq_none_iff participants validator_balances max_deposit_amount
    shard atts, fun hnone => ?_, fun hnone => ?_⟩
  · simp only [crosslink_step, hnone]
  · simp only [crosslink_reward_attesters, hnone]

/-- Claim C5: in crosslink processing, for each `(committee, shard)` the
committee's step sets `latest_crosslinks[shard]` to
`{epoch := current_epoch, shard_block_root := winning_root}` exactly when a
winning root exists for the shard and `3 · winning_balance ≥ 2 · (sum of
effective balances over the committee)`; otherwise this committee leaves the
record unchanged, and entries of other shards are never touched.
`process_crosslinks` folds this step over every committee of every slot in
`[previous epoch start, next epoch start)`. -/
theorem crosslink_step_spec (participants : AttestationData R → ℕ → List ℕ)
    (validator_balances : ℕ → ℕ) (max_deposit_amount current_epoch shard : ℕ)
    (atts : List (PendingAttestationRecord R)) (latest : List (CrosslinkRecord R))
    (committee : List ℕ) :
    (get_winning_root participants validator_balances max_deposit_amount shard
        (filter_attestations_by_shard atts shard) = none →
      crosslink_step participants validator_balances max_deposit_amount current_epoch
        atts latest committee shard = latest) ∧
    (∀ w b, get_winning_root participants validator_balances max_deposit_amount shard
        (filter_attestations_by_shard atts shard) = some (w, b) →
      (3 * b ≥ 2 * (committee.map fun i =>
          get_effective_balance validator_balances i max_deposit_amount).sum →
        crosslink_step participants validator_balances max_deposit_amount current_epoch
          atts latest committee shard = latest.set shard ⟨current_epoch, w⟩ ∧
        (shard < latest.length →
          (crosslink_step participants validator_balances max_deposit_amount current_epoch
            atts latest committee shard)[shard]? = some ⟨current_epoch, w⟩)) ∧
      (¬ 3 * b ≥ 2 * (committee.map fun i =>
          get_effective_balance validator_balances i max_deposit_amount).sum →
        crosslink_step participants validator_balances max_deposit_amount current_epoch
          atts latest committee shard = latest)) ∧
    (∀ j, j ≠ shard →
      (crosslink_step participants validator_balances max_deposit_amount current_epoch
        atts latest committee shard)[j]? = latest[j]?) := by
  refine ⟨fun hnone => by simp only [crosslink_step, hnone], ?_, ?_⟩
  · intro w b hsome
    constructor
    · intro hcond
      have hstep : crosslink_step participants validator_balances max_deposit_amount
          current_epoch atts latest committee shard = latest.set shard ⟨current_epoch, w⟩ := by
        simp only [crosslink_step, hsome]
        rw [if_pos hcond]
      exact ⟨hstep, fun hlen => by rw [hstep, List.getElem?_set_self hlen]⟩
    · intro hcond
      simp only [crosslink_step, hsome]
      rw [if_neg hcond]
  · intro j hj
    rcases hres : get_winning_root participants validator_balances max_deposit_amount shard
        (filter_attestations_by_shard atts shard) with _ | ⟨w, b⟩
    · simp only [crosslink_step, hres]
    · simp only [crosslink_step, hres]
      by_cases hcond : 3 * b ≥ 2 * (committee.map fun i =>
          get_effective_balance validator_balances i max_deposit_amount).sum
      · rw [if_pos hcond, List.getElem?_set_ne (fun h => hj h.symm)]
      · rw [if_neg hcond]

end WinningRoot

/-- Shifting `(b <<< 1) ||| k` back right by one recovers `b ||| (k >>> 1)`:
the low bit of `k` is lost but its second bit merges into `b`'s low bit. -/
theorem shiftLeft_one_or_shiftRight_one (b k : ℕ) :
    ((b <<< 1) ||| k) >>> 1 = b ||| k >>> 1 := by
  apply Nat.eq_of_testBit_eq
  intro i
  simp only [Nat.testBit_shiftRight, Nat.testBit_or, Nat.testBit_shiftLeft]
  have h1 : decide (1 ≤ 1 + i) = true := by simp
  rw [h1, Nat.add_sub_cancel_left]
  simp

/-- Claim C7, counterexample: at the pre-state with `justification_bitfield =
0`, previous epoch justifiable and current epoch not, the post-state
bitfield is `0b10`, whose right-shift by one is `1`, not the pre-state
bitfield `0` (truncation to 63 bits does not change either side). -/
theorem process_justification_shift_counterexample :
    ¬ ((process_justification ⟨0, 0, 0, 0⟩ 1 0 false true).justification_bitfield >>> 1) % 2 ^ 63 =
      (⟨0, 0, 0, 0⟩ : JustificationState).justification_bitfield := by
  decide

/-- Claim C7, amended: `process_justification` sets the new
`justification_bitfield` to the old bitfield shifted left by 1, OR-ed with 3
if both the previous and current epochs are justifiable, 2 if only the
previous is, 1 if only the current is, and 0 otherwise; hence the post-state
bitfield shifted right by 1 equals the pre-state bitfield OR-ed with 1 when
the previous epoch is justifiable, and equals the pre-state bitfield exactly
when it is not. -/
theorem process_justification_bitfield_spec (s : JustificationState)
    (current_epoch previous_epoch : ℤ)
    (current_epoch_justifiable previous_epoch_justifiable : Bool) :
    (process_justification s current_epoch previous_epoch
        current_epoch_justifiable previous_epoch_justifiable).justification_bitfield =
      ((s.justification_bitfield <<< 1) |||
        (if previous_epoch_justifiable && current_epoch_justifiable then 3
          else if previous_epoch_justifiable then 2
          else if current_epoch_justifiable then 1 else 0)) ∧
    (process_justification s current_epoch previous_epoch
        current_epoch_justifiable previous_epoch_justifiable).justification_bitfield >>> 1 =
      s.justification_bitfield ||| (if previous_epoch_justifiable then 1 else 0) := by
  constructor
  · cases current_epoch_justifiable <;> cases previous_epoch_justifiable <;>
      simp [process_justification, process_justification_bitfield]
  · cases current_epoch_justifiable <;> cases previous_epoch_justifiable <;>
      simp [process_justification, process_justification_bitfield,
        shiftLeft_one_or_shiftRight_one]

/-- Claim C8, code-bug evidence: with `LATEST_SLASHED_EXIT_LENGTH = 2` but
`LATEST_RANDAO_MIXES_LENGTH = 3` (ring buffer `[10, 11, 12]` of its own
length 3), at `current_epoch = 1`, `next_epoch = 2`, `process_final_updates`
writes the randao mix for the current epoch (the value `11`) at index
`next_epoch % LATEST_SLASHED_EXIT_LENGTH = 0`, producing `[11, 11, 12]` —
not at the ring buffer's own index `next_epoch % LATEST_RANDAO_MIXES_LENGTH
= 2`, which would produce `[10, 11, 11]`. -/
theorem process_final_updates_randao_index_bug :
    (process_final_updates (⟨1, [0], [0, 0], [10, 11, 12], []⟩ : FinalUpdatesState ℕ)
        (fun _ => []) (fun _ => 0) 1 0 1 2 3).latest_randao_mixes = [11, 11, 12] ∧
    List.set [10, 11, 12] (2 % 3) (get_randao_mix [10, 11, 12] 1 3) = [10, 11, 11] ∧
    ([11, 11, 12] : List ℕ) ≠ [10, 11, 11] := by
  refine ⟨rfl, rfl, by decide⟩

/-- Claim C9: when the registry-update trigger is false,
`process_validator_registry` leaves the validator registry,
`validator_registry_update_epoch` and `current_shuffling_start_shard`
unchanged, and rotates `previous_shuffling_*` from `current_shuffling_*`;
if `current_epoch - validator_registry_update_epoch` is a positive power of
two it advances `current_shuffling_epoch` to `next_epoch` and re-derives
`current_shuffling_seed` on the staged state, and otherwise every
`current_shuffling_*` field keeps its pre-state value. -/
theorem process_validator_registry_not_triggered {R : Type} [Inhabited R]
    (s : RegistryState R) (shard_count slots_per_epoch num_shards : ℕ)
    (generate_seed : RegistryState R → ℕ → R)
    (hcheck : (check_if_update_validator_registry s shard_count num_shards).1 = false) :
    (process_validator_registry s shard_count slots_per_epoch num_shards
        generate_seed).previous_shuffling_epoch = s.current_shuffling_epoch ∧
    (process_validator_registry s shard_count slots_per_epoch num_shards
        generate_seed).previous_shuffling_start_shard = s.current_shuffling_start_shard ∧
    (process_validator_registry s shard_count slots_per_epoch num_shards
        generate_seed).previous_shuffling_seed = s.current_shuffling_seed ∧
    (process_validator_registry s shard_count slots_per_epoch num_shards
        generate_seed).validator_registry = s.validator_registry ∧
    (process_validator_registry s shard_count slots_per_epoch num_shards
        generate_seed).validator_registry_update_epoch = s.validator_registry_update_epoch ∧
    (process_validator_registry s shard_count slots_per_epoch num_shards
        generate_seed).current_shuffling_start_shard = s.current_shuffling_start_shard ∧
    (is_power_of_two (slot_to_epoch s.slot slots_per_epoch -
        s.validator_registry_update_epoch) = true →
      (process_validator_registry s shard_count slots_per_epoch num_shards
          generate_seed).current_shuffling_epoch = slot_to_epoch s.slot slots_per_epoch + 1 ∧
      (process_validator_registry s shard_count slots_per_epoch num_shards
          generate_seed).current_shuffling_seed = generate_seed
        { s with previous_shuffling_epoch := s.current_shuffling_epoch
                 previous_shuffling_start_shard := s.current_shuffling_start_shard
                 previous_shuffling_seed := s.current_shuffling_seed
                 current_shuffling_epoch := slot_to_epoch s.slot slots_per_epoch + 1 }
        (slot_to_epoch s.slot slots_per_epoch + 1)) ∧
    (is_power_of_two (slot_to_epoch s.slot slots_per_epoch -
        s.validator_registry_update_epoch) = false →
      (process_validator_registry s shard_count slots_per_epoch num_shards
          generate_seed).current_shuffling_epoch = s.current_shuffling_epoch ∧
      (process_validator_registry s shard_count slots_per_epoch num_shards
          generate_seed).current_shuffling_seed = s.current_shuffling_seed) := by
  have hc1 : (check_if_update_validator_registry
      { s with previous_shuffling_epoch := s.current_shuffling_epoch
               previous_shuffling_start_shard := s.current_shuffling_start_shard
               previous_shuffling_seed := s.current_shuffling_seed }
      shard_count num_shards).1 = false := hcheck
  rcases hpow : is_power_of_two (slot_to_epoch s.slot slots_per_epoch -
      s.validator_registry_update_epoch) with _ | _ <;>
    simp [process_validator_registry, hc1, hpow]

/-- Claim C10, code-bug evidence: the crosslink-reward part of
`process_rewards_and_penalties` calls `get_winning_root` with keyword
arguments (`genesis_epoch`, `epoch_length`, `target_committee_size`,
`shard_count`) that the keyword-only signature of `get_winning_root` does
not accept, and omits its required `committee_config`; binding therefore
raises a `TypeError` — which `except NoWinningRootError` does not catch —
whenever the crosslink-reward loop body runs, so the function does not
complete exception-free even on states with no previous-epoch attestations.
-/
theorem rewards_crosslink_call_keyword_mismatch :
    "genesis_epoch" ∈ crosslink_reward_get_winning_root_call_keywords ∧
    "genesis_epoch" ∉ get_winning_root_keyword_parameters ∧
    "epoch_length" ∈ crosslink_reward_get_winning_root_call_keywords ∧
    "epoch_length" ∉ get_winning_root_keyword_parameters ∧
    "target_committee_size" ∈ crosslink_reward_get_winning_root_call_keywords ∧
    "target_committee_size" ∉ get_winning_root_keyword_parameters ∧
    "committee_config" ∈ get_winning_root_keyword_parameters ∧
    "committee_config" ∉ crosslink_reward_get_winning_root_call_keywords := by
  decide

/-- With no previous-epoch attestations, the `functools.reduce` over the
empty participant list raises the modelled `TypeError` (`none`), it is
caught, and each of the five attester-index sets of
`process_rewards_and_penalties` is empty — the mechanism C10 describes for
the no-previous-attestation case. -/
theorem empty_previous_epoch_attester_sets {R : Type} [LinearOrder R]
    (latest : List (PendingAttestationRecord R))
    (participants : AttestationData R → ℕ → List ℕ)
    (previous_epoch slots_per_epoch previous_justified_epoch : ℕ) (block_root : ℕ → R)
    (h : ∀ a ∈ latest, slot_to_epoch a.data.slot slots_per_epoch ≠ previous_epoch) :
    get_previous_epoch_attestations latest previous_epoch slots_per_epoch = [] ∧
    reduce_concat ((get_previous_epoch_attestations latest previous_epoch
      slots_per_epoch).map fun a => participants a.data a.aggregation_bitfield) = none ∧
    attester_indices_caught participants
      (get_previous_epoch_attestations latest previous_epoch slots_per_epoch) = ∅ ∧
    attester_indices_caught participants
      (get_previous_epoch_justified_attestations latest previous_epoch slots_per_epoch
        previous_justified_epoch) = ∅ ∧
    attester_indices_caught participants
      (previous_epoch_boundary_attestations latest previous_epoch slots_per_epoch
        previous_justified_epoch block_root) = ∅ ∧
    attester_indices_caught participants
      (get_previous_epoch_head_attestations latest previous_epoch slots_per_epoch
        block_root) = ∅ := by
  have hprev : get_previous_epoch_attestations latest previous_epoch slots_per_epoch = [] := by
    simp only [get_previous_epoch_attestations, List.filter_eq_nil_iff, decide_eq_true_eq]
    intro a ha
    exact fun e => h a ha e.symm
  refine ⟨hprev, ?_, ?_, ?_, ?_, ?_⟩ <;>
    simp [hprev, get_previous_epoch_justified_attestations,
      previous_epoch_boundary_attestations, get_previous_epoch_head_attestations,
      attester_indices_caught, reduce_concat]

/-- Witness for C2: two attestations for shard 0 with roots 5 and 3, one
attester of effective balance 10 each (a positive tie); the winner is the
smaller root 3 with balance 10, also after swapping the two attestations. -/
theorem get_winning_root_spec_witness :
    get_winning_root (fun (_ : AttestationData ℕ) (b : ℕ) => [b]) (fun _ => 10) 100 0
        [⟨⟨0, 0, 3, 0, 0, 0⟩, 1, 0⟩, ⟨⟨0, 0, 5, 0, 0, 0⟩, 0, 0⟩] = some (3, 10) :=
  (get_winning_root_spec (fun _ b => [b]) (fun _ => 10) 100 0
    [⟨⟨0, 0, 5, 0, 0, 0⟩, 0, 0⟩, ⟨⟨0, 0, 3, 0, 0, 0⟩, 1, 0⟩]
    [⟨⟨0, 0, 3, 0, 0, 0⟩, 1, 0⟩, ⟨⟨0, 0, 5, 0, 0, 0⟩, 0, 0⟩]
    (by decide) 3 10 (by decide)).2.2.2.2.2

/-- Witness for C5: a single attestation for shard 0 with root 3 and
attesting balance 10 against a committee of total balance 10 satisfies the
`3·10 ≥ 2·10` supermajority, so the crosslink record of shard 0 is set to
`{epoch := 7, shard_block_root := 3}`. -/
theorem crosslink_step_spec_witness :
    crosslink_step (fun (_ : AttestationData ℕ) (b : ℕ) => [b]) (fun _ => 10) 100 7
        [⟨⟨0, 0, 3, 0, 0, 0⟩, 1, 0⟩] [⟨0, 0⟩] [1] 0 = [⟨7, 3⟩] :=
  ((crosslink_step_spec (fun (_ : AttestationData ℕ) (b : ℕ) => [b]) (fun _ => 10) 100 7 0
    [⟨⟨0, 0, 3, 0, 0, 0⟩, 1, 0⟩] [⟨0, 0⟩] [1]).2.1 3 10 (by decide)).1 (by decide) |>.1

/-- Witness for C6: with all balances zero the single candidate root has
zero attesting balance, `get_winning_root` fails, and the crosslink-reward
computation substitutes the empty attester set. -/
theorem no_winning_root_spec_witness :
    crosslink_reward_attesters (fun (_ : AttestationData ℕ) (b : ℕ) => [b]) (fun _ => 0) 100 0
        [⟨⟨0, 0, 3, 0, 0, 0⟩, 1, 0⟩] = ∅ :=
  (no_winning_root_spec (fun _ b => [b]) (fun _ => 0) 100 7 0
    [⟨⟨0, 0, 3, 0, 0, 0⟩, 1, 0⟩] [⟨0, 0⟩] [1]).2.2 (by decide)

/-- Witness for C9: trigger false (`finalized_epoch = 0 ≤
validator_registry_update_epoch = 1`), `current_epoch - update_epoch = 1` a
positive power of two: the shuffling epoch advances to 3 while the start
shard stays 4. -/
theorem process_validator_registry_not_triggered_witness :
    (process_validator_registry
        (⟨2, [], 1, 0, 0, 0, (0 : ℕ), 1, 4, 7, []⟩ : RegistryState ℕ)
        8 1 0 (fun _ e => e + 100)).current_shuffling_start_shard = 4 ∧
    (process_validator_registry
        (⟨2, [], 1, 0, 0, 0, (0 : ℕ), 1, 4, 7, []⟩ : RegistryState ℕ)
        8 1 0 (fun _ e => e + 100)).current_shuffling_epoch = 3 := by
  have h := process_validator_registry_not_triggered
    (⟨2, [], 1, 0, 0, 0, (0 : ℕ), 1, 4, 7, []⟩ : RegistryState ℕ)
    8 1 0 (fun _ e => e + 100) (by decide)
  exact ⟨h.2.2.2.2.2.1, (h.2.2.2.2.2.2.1 (by decide)).1⟩

end PyEvm
